import Mathlib
/-!
Verification of the thermostat controller (ThermostatV4.py, with the V3 and
earlier variants as context).  The Python control logic is embedded shallowly:
temperatures are rationals, machine state is passed explicitly, fallible
reads are `Option`, and the periodic display loop body is a pure state
transformer on counters plus machine state.
-/

/-- Tunable parameter HYSTERESIS_F from the source (1.0 degrees F). -/
def HYSTERESIS_F : ℚ := 1

/-- Tunable parameter MA_WINDOW from the source. -/
def MA_WINDOW : ℤ := 10

/-- Tunable parameter STATUS_PERIOD_S from the source. -/
def STATUS_PERIOD_S : ℕ := 30

/-- Tunable parameter SCHEDULE_ENABLED from the source. -/
def SCHEDULE_ENABLED : Bool := true

/-- The three states of the TemperatureMachine. -/
inductive Mode where
  | off
  | heat
  | cool
deriving DecidableEq, Repr

/-- The transition of the machine:
cycle = off.to(heat) or heat.to(cool) or cool.to(off). -/
def Mode.cycle : Mode → Mode
  | .off => .heat
  | .heat => .cool
  | .cool => .off

/-- The state-machine labels used in the serial line (current_state.id). -/
def modeLabel : Mode → String
  | .off => "off"
  | .heat => "heat"
  | .cool => "cool"

/-- Final command applied to one PWMLED by one evaluation of updateLights:
off(), value = 1.0 (solid), or pulse(...) (pulsing). -/
inductive LightCmd where
  | ledOff
  | solid
  | pulsing
deriving DecidableEq, Repr

/-- getFahrenheit: the sensor transaction yields an optional Celsius reading
(device absent and read exception both surface as none); a present reading
is converted by (9 / 5) * t + 32. -/
def getFahrenheit (sensorReading : Option ℚ) : Option ℚ :=
  match sensorReading with
  | none => none
  | some t => some (9 / 5 * t + 32)

/-- The actuator decision of updateLights, as a function of the current
state, the smoothed temperature (or none), and the effective set point.
Both lights are first turned off; in state off the method returns there;
with no temperature the active state's light goes solid; otherwise the
hysteresis band around the set point selects pulsing or solid.
Result is (red light command, blue light command). -/
def lightDecision (state : Mode) (temp : Option ℚ) (setPoint : ℤ) :
    LightCmd × LightCmd :=
  if state = Mode.off then (LightCmd.ledOff, LightCmd.ledOff)
  else
    match temp with
    | none =>
      if state = Mode.heat then (LightCmd.solid, LightCmd.ledOff)
      else if state = Mode.cool then (LightCmd.ledOff, LightCmd.solid)
      else (LightCmd.ledOff, LightCmd.ledOff)
    | some t =>
      if state = Mode.heat then
        if t < (setPoint : ℚ) - HYSTERESIS_F then (LightCmd.pulsing, LightCmd.ledOff)
        else (LightCmd.solid, LightCmd.ledOff)
      else if state = Mode.cool then
        if t > (setPoint : ℚ) + HYSTERESIS_F then (LightCmd.ledOff, LightCmd.pulsing)
        else (LightCmd.ledOff, LightCmd.solid)
      else (LightCmd.ledOff, LightCmd.ledOff)

/-- A decision that leaves both actuators off. -/
def bothOff (r : LightCmd × LightCmd) : Prop :=
  r = (LightCmd.ledOff, LightCmd.ledOff)

/-- A decision that drives exactly one actuator solid on. -/
def solidOne (r : LightCmd × LightCmd) : Prop :=
  r = (LightCmd.solid, LightCmd.ledOff) ∨ r = (LightCmd.ledOff, LightCmd.solid)

/-- A decision that drives exactly one actuator pulsing. -/
def pulsingOne (r : LightCmd × LightCmd) : Prop :=
  r = (LightCmd.pulsing, LightCmd.ledOff) ∨ r = (LightCmd.ledOff, LightCmd.pulsing)

instance (r : LightCmd × LightCmd) : Decidable (bothOff r) := by
  unfold bothOff; infer_instance

instance (r : LightCmd × LightCmd) : Decidable (solidOne r) := by
  unfold solidOne; infer_instance

instance (r : LightCmd × LightCmd) : Decidable (pulsingOne r) := by
  unfold pulsingOne; infer_instance

/-- Exactly one of the three decision shapes holds. -/
def exactlyOneShape (r : LightCmd × LightCmd) : Prop :=
  (bothOff r ∧ ¬ solidOne r ∧ ¬ pulsingOne r)
  ∨ (solidOne r ∧ ¬ bothOff r ∧ ¬ pulsingOne r)
  ∨ (pulsingOne r ∧ ¬ bothOff r ∧ ¬ solidOne r)

/-- The preprocessed schedule key array (minutes since midnight) built from
SCHEDULE_ENTRIES: 06:00 and 22:00. -/
def scheduleMinutes : List ℕ := [360, 1320]

/-- The preprocessed schedule value array (base set points 70 and 65). -/
def scheduleValues : List ℤ := [70, 65]

/-- The loop body of bisect.bisect_right, run on the window lo..hi with a
structural fuel argument; the loop halves the window each iteration, so any
fuel of at least hi - lo reaches the lo = hi exit before the fuel runs out. -/
def bisectRightGo (a : List ℕ) (x : ℕ) : ℕ → ℕ → ℕ → ℕ
  | lo, _, 0 => lo
  | lo, hi, fuel + 1 =>
    if lo < hi then
      let mid := (lo + hi) / 2
      if x < a.getD mid 0 then bisectRightGo a x lo mid fuel
      else bisectRightGo a x (mid + 1) hi fuel
    else lo

/-- bisect.bisect_right(a, x) over the whole array. -/
def bisectRight (a : List ℕ) (x : ℕ) : ℕ :=
  bisectRightGo a x 0 a.length a.length

/-- The schedule half of _refreshEffectiveSetPoint: compute the base set
point for minute-of-day m by binary search; idx = bisect_right(keys, m) - 1,
wrapping to the last value when idx is negative. -/
def refreshBase (mins : List ℕ) (vals : List ℤ) (m : ℕ) : ℤ :=
  let idx : ℤ := (bisectRight mins m : ℤ) - 1
  if idx < 0 then vals.getLastD 0
  else vals.getD idx.toNat 0

/-- The set point bookkeeping of the TemperatureMachine: schedule base,
manual offset from the buttons, and the effective set point. -/
structure SetpointState where
  baseSetPoint : ℤ
  manualOffset : ℤ
  setPoint : ℤ
deriving DecidableEq, Repr

/-- _refreshEffectiveSetPoint: when the schedule is enabled and non-empty,
recompute the base from the schedule at the current minute-of-day; in every
case set the effective set point to base plus manual offset. -/
def refreshEffectiveSetPoint (en : Bool) (mins : List ℕ) (vals : List ℤ)
    (m : ℕ) (st : SetpointState) : SetpointState :=
  let base := if en ∧ mins ≠ [] then refreshBase mins vals m else st.baseSetPoint
  { baseSetPoint := base, manualOffset := st.manualOffset,
    setPoint := base + st.manualOffset }

/-- processTempIncButton: bump the manual offset, refresh the effective set
point, then updateLights (whose first step refreshes again). -/
def processTempIncButton (en : Bool) (mins : List ℕ) (vals : List ℤ)
    (m : ℕ) (st : SetpointState) : SetpointState :=
  let st1 := { st with manualOffset := st.manualOffset + 1 }
  let st2 := refreshEffectiveSetPoint en mins vals m st1
  refreshEffectiveSetPoint en mins vals m st2

/-- processTempDecButton: drop the manual offset, refresh the effective set
point, then updateLights (whose first step refreshes again). -/
def processTempDecButton (en : Bool) (mins : List ℕ) (vals : List ℤ)
    (m : ℕ) (st : SetpointState) : SetpointState :=
  let st1 := { st with manualOffset := st.manualOffset - 1 }
  let st2 := refreshEffectiveSetPoint en mins vals m st1
  refreshEffectiveSetPoint en mins vals m st2

/-- MovingAverage: bounded moving average with a FIFO buffer (deque) and an
incrementally maintained running sum. -/
structure MovingAverage where
  window : ℕ
  buf : List ℚ
  sum : ℚ
deriving DecidableEq, Repr

/-- The MovingAverage constructor: window = max(1, int(window)), empty
buffer, zero sum. -/
def MovingAverage.init (window : ℤ) : MovingAverage :=
  { window := (max 1 window).toNat, buf := [], sum := 0 }

/-- value(): sum / len(buf) when the buffer is non-empty, otherwise None. -/
def MovingAverage.value (ma : MovingAverage) : Option ℚ :=
  if ma.buf = [] then none else some (ma.sum / (ma.buf.length : ℚ))

/-- push(x): append x, add to the running sum, pop the oldest sample and
subtract it when the buffer has grown past the window, return value().
The front element popped by popleft is the head of the appended buffer. -/
def MovingAverage.push (ma : MovingAverage) (x : ℚ) : MovingAverage × Option ℚ :=
  let buf1 := ma.buf ++ [x]
  let sum1 := ma.sum + x
  let ma1 : MovingAverage :=
    if ma.window < buf1.length then
      { window := ma.window, buf := buf1.tail, sum := sum1 - buf1.headD 0 }
    else
      { window := ma.window, buf := buf1, sum := sum1 }
  (ma1, ma1.value)

/-- Push a whole sample stream, collecting the value returned by each push. -/
def MovingAverage.pushAll (ma : MovingAverage) (xs : List ℚ) :
    MovingAverage × List (Option ℚ) :=
  match xs with
  | [] => (ma, [])
  | x :: rest =>
    let p := ma.push x
    let q := p.1.pushAll rest
    (q.1, p.2 :: q.2)

/-- States of the filter reachable from the constructor: the running sum
agrees with the buffer, the buffer fits the window, and the window is
positive. -/
def MovingAverage.Valid (ma : MovingAverage) : Prop :=
  ma.sum = ma.buf.sum ∧ ma.buf.length ≤ ma.window ∧ 1 ≤ ma.window

/-- The filter state reached by constructing with the given window and
pushing the given sample stream. -/
def maAfter (w : ℤ) (xs : List ℚ) : MovingAverage :=
  ((MovingAverage.init w).pushAll xs).1

/-- The mutable state of the TemperatureMachine that the display loop and
the button events share: current mode, set point bookkeeping, and the
smoothing filter. -/
structure MachineState where
  mode : Mode
  sp : SetpointState
  ma : MovingAverage
deriving DecidableEq, Repr

/-- The machine as constructed at startup: initial state off, base 72,
offset 0, effective set point 72, fresh filter with window MA_WINDOW. -/
def initMachine : MachineState :=
  { mode := Mode.off, sp := { baseSetPoint := 72, manualOffset := 0, setPoint := 72 },
    ma := MovingAverage.init MA_WINDOW }

/-- _getSmoothedFahrenheit: read the sensor through getFahrenheit; an absent
reading is returned as-is without touching the filter, a present one is
pushed and the new average returned. -/
def getSmoothedFahrenheit (ma : MovingAverage) (sensorReading : Option ℚ) :
    MovingAverage × Option ℚ :=
  match getFahrenheit sensorReading with
  | none => (ma, none)
  | some tF => ma.push tF

/-- setupSerialOutput minus its own smoothed read: format
state,temp,setpoint where temp is the floor of the smoothed value or NA. -/
def setupSerialOutput (state : Mode) (tempSm : Option ℚ) (setPoint : ℤ) : String :=
  modeLabel state ++ "," ++
    (match tempSm with
     | some t => toString (Int.floor t)
     | none => "NA") ++ "," ++ toString setPoint

/-- The line written to the serial port: setupSerialOutput plus a newline. -/
def statusTransmission (state : Mode) (tempSm : Option ℚ) (setPoint : ℤ) : String :=
  setupSerialOutput state tempSm setPoint ++ "\n"

/-- The state-machine label upper-cased for the LCD
(current_state.id.upper()). -/
def modeLabelUpper : Mode → String
  | .off => "OFF"
  | .heat => "HEAT"
  | .cool => "COOL"

/-- Result of the display-alternation part of one loop iteration. -/
structure DispOut where
  st : MachineState
  reads : ℕ
  altCounter : ℕ
  line2 : String
  lights : Option (LightCmd × LightCmd)
deriving Repr

/-- The altCounter branch of manageMyDisplay: below 6, read the smoothed
temperature for the Temp/Set line; otherwise show the state label and, when
the incremented counter reaches 11, run updateLights (which refreshes the
set point, reads the smoothed temperature and decides the lights) and reset
the counter to 1.  LCD padding to 16 columns is elided (display rendering is
out of scope).  reads counts the _getSmoothedFahrenheit calls. -/
def displayPhase (m : ℕ) (samples : ℕ → Option ℚ) (altCounter : ℕ)
    (st : MachineState) : DispOut :=
  if altCounter < 6 then
    let p := getSmoothedFahrenheit st.ma (samples 0)
    let tShow := match p.2 with
      | none => "--"
      | some t => toString (Int.floor t)
    { st := { st with ma := p.1 }, reads := 1, altCounter := altCounter + 1,
      line2 := "Temp:" ++ tShow ++ "F Set:" ++ toString st.sp.setPoint ++ "F",
      lights := none }
  else
    if 11 ≤ altCounter + 1 then
      let sp2 := refreshEffectiveSetPoint SCHEDULE_ENABLED scheduleMinutes
        scheduleValues m st.sp
      let p := getSmoothedFahrenheit st.ma (samples 0)
      { st := { st with sp := sp2, ma := p.1 }, reads := 1, altCounter := 1,
        line2 := modeLabelUpper st.mode,
        lights := some (lightDecision st.mode p.2 sp2.setPoint) }
    else
      { st := st, reads := 0, altCounter := altCounter + 1,
        line2 := modeLabelUpper st.mode, lights := none }

/-- Result of the slow-cadence status part of one loop iteration. -/
structure StatusOut where
  st : MachineState
  reads : ℕ
  counter : ℕ
  emitted : Option String
deriving Repr

/-- The counter branch of manageMyDisplay: when counter is a multiple of
STATUS_PERIOD_S, read the smoothed temperature for the serial line (when the
serial port is present), write it, read the smoothed temperature again for
the database entry, and reset the counter to 1; otherwise bump the counter.
readBase indexes the sensor samples already consumed this iteration. -/
def statusPhase (samples : ℕ → Option ℚ) (readBase : ℕ) (ser : Bool)
    (counter : ℕ) (st : MachineState) : StatusOut :=
  if counter % STATUS_PERIOD_S = 0 then
    if ser then
      let p := getSmoothedFahrenheit st.ma (samples readBase)
      let line := statusTransmission st.mode p.2 st.sp.setPoint
      let q := getSmoothedFahrenheit p.1 (samples (readBase + 1))
      { st := { st with ma := q.1 }, reads := 2, counter := 1,
        emitted := some line }
    else
      let q := getSmoothedFahrenheit st.ma (samples readBase)
      { st := { st with ma := q.1 }, reads := 1, counter := 1, emitted := none }
  else
    { st := st, reads := 0, counter := counter + 1, emitted := none }

/-- Result of one full iteration of the manageMyDisplay loop. -/
structure TickOut where
  st : MachineState
  counter : ℕ
  altCounter : ℕ
  reads : ℕ
  line2 : String
  lights : Option (LightCmd × LightCmd)
  emitted : Option String
deriving Repr

/-- One iteration of the manageMyDisplay while-loop: refresh the effective
set point, run the display alternation, then the slow-cadence status
emission.  m is the current minute-of-day; samples enumerates the sensor
readings the iteration may consume; ser tells whether the serial port
initialized. -/
def manageMyDisplayTick (m : ℕ) (samples : ℕ → Option ℚ) (ser : Bool)
    (counter altCounter : ℕ) (st : MachineState) : TickOut :=
  let st1 : MachineState :=
    { st with sp := (refreshEffectiveSetPoint SCHEDULE_ENABLED scheduleMinutes
        scheduleValues m st.sp) }
  let d := displayPhase m samples altCounter st1
  let s := statusPhase samples d.reads ser counter d.st
  { st := s.st, counter := s.counter, altCounter := d.altCounter,
    reads := d.reads + s.reads, line2 := d.line2, lights := d.lights,
    emitted := s.emitted }

/-- The loop-local counters of manageMyDisplay together with the shared
machine state. -/
structure LoopState where
  counter : ℕ
  altCounter : ℕ
  st : MachineState
deriving Repr

/-- State of the loop after n iterations, starting from counter = 1 and
altCounter = 1 as manageMyDisplay does. -/
def loopState (minutes : ℕ → ℕ) (samples : ℕ → ℕ → Option ℚ) (ser : Bool) :
    ℕ → LoopState
  | 0 => { counter := 1, altCounter := 1, st := initMachine }
  | n + 1 =>
    let p := loopState minutes samples ser n
    let out := manageMyDisplayTick (minutes n) (samples n) ser
      p.counter p.altCounter p.st
    { counter := out.counter, altCounter := out.altCounter, st := out.st }

/-- Entries at indices below a sorted position are bounded by entries at or
above it. -/
lemma sorted_getD_le (a : List ℕ) (hs : a.Sorted (· ≤ ·)) {i j : ℕ}
    (hij : i ≤ j) (hj : j < a.length) : a.getD i 0 ≤ a.getD j 0 := by
  rcases eq_or_lt_of_le hij with rfl | hlt
  · exact le_refl _
  · have hi : i < a.length := lt_trans hlt hj
    rw [List.getD_eq_getElem a 0 hi, List.getD_eq_getElem a 0 hj]
    exact List.Sorted.rel_get_of_lt hs (a := ⟨i, hi⟩) (b := ⟨j, hj⟩) hlt

/-- Main loop invariant of bisect_right: starting from a window lo..hi in
which every index below lo holds a key at most x and every index at or above
hi holds a key above x, the loop returns a split point r with the same two
properties and lo ≤ r ≤ hi. -/
lemma bisectRightGo_correct (a : List ℕ) (x : ℕ) (hs : a.Sorted (· ≤ ·)) :
    ∀ fuel lo hi, hi - lo ≤ fuel → lo ≤ hi → hi ≤ a.length →
      (∀ i, i < lo → a.getD i 0 ≤ x) →
      (∀ i, hi ≤ i → i < a.length → x < a.getD i 0) →
      lo ≤ bisectRightGo a x lo hi fuel
      ∧ bisectRightGo a x lo hi fuel ≤ hi
      ∧ (∀ i, i < bisectRightGo a x lo hi fuel → a.getD i 0 ≤ x)
      ∧ (∀ i, bisectRightGo a x lo hi fuel ≤ i → i < a.length → x < a.getD i 0) := by
  intro fuel
  induction fuel with
  | zero =>
    intro lo hi hfuel hlh hha hlow hhigh
    have : lo = hi := by omega
    subst this
    exact ⟨le_refl _, le_refl _, hlow, fun i h1 h2 => hhigh i h1 h2⟩
  | succ fuel ih =>
    intro lo hi hfuel hlh hha hlow hhigh
    simp only [bisectRightGo]
    split
    case isFalse h =>
      have : lo = hi := by omega
      subst this
      exact ⟨le_refl _, le_refl _, hlow, fun i h1 h2 => hhigh i h1 h2⟩
    case isTrue h =>
      have hmidlt : (lo + hi) / 2 < hi := by omega
      have hmidge : lo ≤ (lo + hi) / 2 := by omega
      split
      case isTrue hx =>
        -- everything at or above mid is above x, by sortedness
        have hhigh' : ∀ i, (lo + hi) / 2 ≤ i → i < a.length → x < a.getD i 0 := by
          intro i hi1 hi2
          exact lt_of_lt_of_le hx (sorted_getD_le a hs hi1 hi2)
        have := ih lo ((lo + hi) / 2) (by omega) hmidge (by omega) hlow hhigh'
        exact ⟨this.1, le_trans this.2.1 (le_of_lt hmidlt), this.2.2.1, this.2.2.2⟩
      case isFalse hx =>
        -- everything below mid + 1 is at most x, by sortedness
        have hlow' : ∀ i, i < (lo + hi) / 2 + 1 → a.getD i 0 ≤ x := by
          intro i hi1
          have : a.getD i 0 ≤ a.getD ((lo + hi) / 2) 0 :=
            sorted_getD_le a hs (by omega) (by omega)
          omega
        have := ih ((lo + hi) / 2 + 1) hi (by omega) (by omega) hha hlow' hhigh
        exact ⟨le_trans (by omega) this.1, this.2.1, this.2.2.1, this.2.2.2⟩

/-- bisect_right on a sorted array: the returned split point r satisfies
r ≤ length, keys below r are at most x, keys at or from r are above x. -/
lemma bisectRight_correct (a : List ℕ) (x : ℕ) (hs : a.Sorted (· ≤ ·)) :
    bisectRight a x ≤ a.length
    ∧ (∀ i, i < bisectRight a x → a.getD i 0 ≤ x)
    ∧ (∀ i, bisectRight a x ≤ i → i < a.length → x < a.getD i 0) := by
  have := bisectRightGo_correct a x hs a.length 0 a.length (by omega)
    (Nat.zero_le _) (le_refl _) (by omega) (by intro i h1 h2; omega)
  exact ⟨this.2.1, this.2.2.1, this.2.2.2⟩

lemma MovingAverage.valid_init (w : ℤ) : (MovingAverage.init w).Valid := by
  refine ⟨rfl, by simp [MovingAverage.init], ?_⟩
  simp only [MovingAverage.init]
  omega

lemma MovingAverage.push_window (ma : MovingAverage) (x : ℚ) :
    (ma.push x).1.window = ma.window := by
  simp only [MovingAverage.push]
  split <;> rfl

/-- The buffer after a push: FIFO eviction of the oldest sample exactly when
the buffer was full. -/
lemma MovingAverage.push_buf (ma : MovingAverage) (x : ℚ) (hv : ma.Valid) :
    (ma.push x).1.buf
      = if ma.buf.length = ma.window then ma.buf.tail ++ [x] else ma.buf ++ [x] := by
  obtain ⟨w, buf, s⟩ := ma
  obtain ⟨hsum, hlen, hwin⟩ := hv
  simp only at hsum hlen hwin
  simp only [MovingAverage.push]
  split
  case isTrue hcond =>
    simp only [List.length_append, List.length_singleton] at hcond hlen ⊢
    rw [if_pos (by omega : buf.length = w)]
    rcases buf with _ | ⟨b, bs⟩
    · simp at hcond
      omega
    · simp
  case isFalse hcond =>
    simp only [List.length_append, List.length_singleton] at hcond hlen ⊢
    rw [if_neg (by omega : ¬ buf.length = w)]

lemma MovingAverage.push_valid (ma : MovingAverage) (x : ℚ) (hv : ma.Valid) :
    (ma.push x).1.Valid := by
  obtain ⟨w, buf, s⟩ := ma
  obtain ⟨hsum, hlen, hwin⟩ := hv
  simp only at hsum hlen hwin
  simp only [MovingAverage.push, MovingAverage.Valid]
  split
  case isTrue hcond =>
    rcases buf with _ | ⟨b, bs⟩
    · simp at hcond
      omega
    · simp only [List.sum_cons] at hsum
      refine ⟨?_, ?_, hwin⟩
      · simp [hsum, List.sum_append]
        ring
      · simp at hcond hlen ⊢
        omega
  case isFalse hcond =>
    simp only [List.length_append, List.length_singleton] at hcond
    refine ⟨?_, ?_, hwin⟩
    · simp [hsum, List.sum_append]
    · simp
      omega

lemma MovingAverage.pushAll_valid (ma : MovingAverage) (xs : List ℚ)
    (hv : ma.Valid) : (ma.pushAll xs).1.Valid := by
  induction xs generalizing ma with
  | nil => exact hv
  | cons x rest ih =>
    exact ih (ma.push x).1 (ma.push_valid x hv)

lemma MovingAverage.pushAll_window (ma : MovingAverage) (xs : List ℚ) :
    (ma.pushAll xs).1.window = ma.window := by
  induction xs generalizing ma with
  | nil => rfl
  | cons x rest ih =>
    rw [MovingAverage.pushAll]
    simp only
    rw [ih, MovingAverage.push_window]

lemma MovingAverage.push_buf_ne_nil (ma : MovingAverage) (x : ℚ)
    (hwin : 1 ≤ ma.window) : (ma.push x).1.buf ≠ [] := by
  obtain ⟨w, buf, s⟩ := ma
  simp only at hwin
  simp only [MovingAverage.push]
  split
  case isTrue hcond =>
    intro hnil
    have h2 := congrArg List.length hnil
    simp only [List.length_tail, List.length_append, List.length_singleton,
      List.length_nil] at h2
    simp only [List.length_append, List.length_singleton] at hcond
    omega
  case isFalse hcond => simp

lemma MovingAverage.pushAll_buf_ne_nil (ma : MovingAverage) (x : ℚ)
    (rest : List ℚ) (hwin : 1 ≤ ma.window) :
    (ma.pushAll (x :: rest)).1.buf ≠ [] := by
  induction rest generalizing ma x with
  | nil => exact ma.push_buf_ne_nil x hwin
  | cons y rest ih =>
    rw [MovingAverage.pushAll]
    simp only
    have hwin2 : 1 ≤ (ma.push x).1.window := by rw [MovingAverage.push_window]; exact hwin
    exact ih (ma.push x).1 y hwin2

/-- The value a push returns is the average of the retained samples. -/
lemma MovingAverage.push_value (ma : MovingAverage) (x : ℚ) (hv : ma.Valid) :
    (ma.push x).2
      = some ((ma.push x).1.buf.sum / ((ma.push x).1.buf.length : ℚ)) := by
  have hne := ma.push_buf_ne_nil x hv.2.2
  have hvalid := ma.push_valid x hv
  have hv2 : (ma.push x).2 = (ma.push x).1.value := by
    simp only [MovingAverage.push]
  rw [hv2]
  simp only [MovingAverage.value]
  rw [if_neg hne, hvalid.1]

lemma maAfter_valid (w : ℤ) (xs : List ℚ) : (maAfter w xs).Valid :=
  MovingAverage.pushAll_valid _ xs (MovingAverage.valid_init w)

lemma maAfter_window (w : ℤ) (xs : List ℚ) :
    (maAfter w xs).window = (MovingAverage.init w).window :=
  MovingAverage.pushAll_window _ xs

lemma maAfter_buf_empty_iff (w : ℤ) (xs : List ℚ) :
    (maAfter w xs).buf = [] ↔ xs = [] := by
  constructor
  · intro h
    rcases xs with _ | ⟨y, rest⟩
    · rfl
    · exact absurd h
        (MovingAverage.pushAll_buf_ne_nil _ y rest (MovingAverage.valid_init w).2.2)
  · intro h
    subst h
    rfl

lemma refresh_idem (en : Bool) (mins : List ℕ) (vals : List ℤ) (m : ℕ)
    (st : SetpointState) :
    refreshEffectiveSetPoint en mins vals m (refreshEffectiveSetPoint en mins vals m st)
      = refreshEffectiveSetPoint en mins vals m st := by
  simp only [refreshEffectiveSetPoint]
  split <;> rfl

lemma displayPhase_reads (m : ℕ) (samples : ℕ → Option ℚ) (a : ℕ)
    (st : MachineState) :
    (displayPhase m samples a st).reads
      = if a < 6 then 1 else if 11 ≤ a + 1 then 1 else 0 := by
  simp only [displayPhase]
  split
  · rfl
  · split <;> rfl

lemma displayPhase_altCounter (m : ℕ) (samples : ℕ → Option ℚ) (a : ℕ)
    (st : MachineState) :
    (displayPhase m samples a st).altCounter
      = if a < 6 then a + 1 else if 11 ≤ a + 1 then 1 else a + 1 := by
  simp only [displayPhase]
  split
  · rfl
  · split <;> rfl

lemma displayPhase_mode (m : ℕ) (samples : ℕ → Option ℚ) (a : ℕ)
    (st : MachineState) :
    (displayPhase m samples a st).st.mode = st.mode := by
  simp only [displayPhase]
  split
  · rfl
  · split <;> rfl

lemma displayPhase_sp (m : ℕ) (samples : ℕ → Option ℚ) (a : ℕ)
    (st : MachineState) :
    (displayPhase m samples a st).st.sp = st.sp
    ∨ (displayPhase m samples a st).st.sp
        = refreshEffectiveSetPoint SCHEDULE_ENABLED scheduleMinutes
            scheduleValues m st.sp := by
  simp only [displayPhase]
  split
  · left; rfl
  · split
    · right; rfl
    · left; rfl

lemma statusPhase_reads (samples : ℕ → Option ℚ) (rb : ℕ) (ser : Bool)
    (c : ℕ) (st : MachineState) :
    (statusPhase samples rb ser c st).reads
      = if c % STATUS_PERIOD_S = 0 then (if ser then 2 else 1) else 0 := by
  simp only [statusPhase]
  split
  · split <;> rfl
  · rfl

lemma statusPhase_counter (samples : ℕ → Option ℚ) (rb : ℕ) (ser : Bool)
    (c : ℕ) (st : MachineState) :
    (statusPhase samples rb ser c st).counter
      = if c % STATUS_PERIOD_S = 0 then 1 else c + 1 := by
  simp only [statusPhase]
  split
  · split <;> rfl
  · rfl

lemma statusPhase_emitted_isSome (samples : ℕ → Option ℚ) (rb : ℕ)
    (c : ℕ) (st : MachineState) :
    (statusPhase samples rb true c st).emitted.isSome
      = (c % STATUS_PERIOD_S == 0) := by
  simp only [statusPhase]
  split
  case isTrue h => simp [h]
  case isFalse h => simp [h]

lemma statusPhase_emitted_shape (samples : ℕ → Option ℚ) (rb : ℕ) (ser : Bool)
    (c : ℕ) (st : MachineState) :
    (statusPhase samples rb ser c st).emitted = none
    ∨ ∃ temp, (statusPhase samples rb ser c st).emitted
        = some (statusTransmission st.mode temp st.sp.setPoint) := by
  simp only [statusPhase]
  split
  · split
    · right
      exact ⟨_, rfl⟩
    · left; rfl
  · left; rfl

lemma tick_counter (m : ℕ) (samples : ℕ → Option ℚ) (ser : Bool)
    (c a : ℕ) (st : MachineState) :
    (manageMyDisplayTick m samples ser c a st).counter
      = if c % STATUS_PERIOD_S = 0 then 1 else c + 1 := by
  simp only [manageMyDisplayTick]
  rw [statusPhase_counter]

lemma tick_altCounter (m : ℕ) (samples : ℕ → Option ℚ) (ser : Bool)
    (c a : ℕ) (st : MachineState) :
    (manageMyDisplayTick m samples ser c a st).altCounter
      = if a < 6 then a + 1 else if 11 ≤ a + 1 then 1 else a + 1 := by
  simp only [manageMyDisplayTick]
  rw [displayPhase_altCounter]

lemma tick_emitted_isSome (m : ℕ) (samples : ℕ → Option ℚ)
    (c a : ℕ) (st : MachineState) :
    (manageMyDisplayTick m samples true c a st).emitted.isSome
      = (c % STATUS_PERIOD_S == 0) := by
  simp only [manageMyDisplayTick]
  rw [statusPhase_emitted_isSome]

/-- C1: with a present smoothed temperature and hysteresis H = 1.0, the
actuation policy turns both actuators off in Off mode; in Heat mode the red
actuator pulses iff temp is strictly below setpoint minus H and is solid
otherwise; in Cool mode the blue actuator pulses iff temp is strictly above
setpoint plus H and is solid otherwise; and every evaluation produces
exactly one of both-off, solid, or pulsing. -/
theorem C1_actuation_policy (t : ℚ) (sp : ℤ) (m : Mode) :
    HYSTERESIS_F = 1
    ∧ lightDecision Mode.off (some t) sp = (LightCmd.ledOff, LightCmd.ledOff)
    ∧ lightDecision Mode.heat (some t) sp
        = ((if t < (sp : ℚ) - HYSTERESIS_F then LightCmd.pulsing else LightCmd.solid),
           LightCmd.ledOff)
    ∧ lightDecision Mode.cool (some t) sp
        = (LightCmd.ledOff,
           (if t > (sp : ℚ) + HYSTERESIS_F then LightCmd.pulsing else LightCmd.solid))
    ∧ exactlyOneShape (lightDecision m (some t) sp) := by
  refine ⟨rfl, rfl, ?_, ?_, ?_⟩
  · by_cases h : t < (sp : ℚ) - HYSTERESIS_F <;> simp [lightDecision, h]
  · by_cases h : t > (sp : ℚ) + HYSTERESIS_F <;> simp [lightDecision, h]
  · cases m with
    | off => simp [lightDecision, exactlyOneShape]; decide
    | heat =>
      by_cases h : t < (sp : ℚ) - HYSTERESIS_F <;>
        · simp [lightDecision, exactlyOneShape, h]; decide
    | cool =>
      by_cases h : t > (sp : ℚ) + HYSTERESIS_F <;>
        · simp [lightDecision, exactlyOneShape, h]; decide

/-- C5: when the smoothed temperature is absent, Heat mode drives the red
actuator solid on and Cool mode drives the blue actuator solid on, never
pulsing either actuator; and the sensor read itself recovers the failure
locally, returning an absent reading instead of propagating (a present
Celsius reading c converts to 9/5*c + 32). -/
theorem C5_absent_failsafe (sp : ℤ) (c : ℚ) :
    lightDecision Mode.heat none sp = (LightCmd.solid, LightCmd.ledOff)
    ∧ lightDecision Mode.cool none sp = (LightCmd.ledOff, LightCmd.solid)
    ∧ (lightDecision Mode.heat none sp).1 ≠ LightCmd.pulsing
    ∧ (lightDecision Mode.heat none sp).2 ≠ LightCmd.pulsing
    ∧ (lightDecision Mode.cool none sp).1 ≠ LightCmd.pulsing
    ∧ (lightDecision Mode.cool none sp).2 ≠ LightCmd.pulsing
    ∧ getFahrenheit none = none
    ∧ getFahrenheit (some c) = some (9 / 5 * c + 32) := by
  refine ⟨?_, ?_, ?_, ?_, ?_, ?_, rfl, rfl⟩ <;> simp [lightDecision]

/-- C7: the mode transition is exactly the cycle Off to Heat to Cool to Off;
three applications of the cycle event return every mode to itself, and one
application never fixes a mode. -/
theorem C7_mode_cycle (m : Mode) :
    Mode.cycle Mode.off = Mode.heat
    ∧ Mode.cycle Mode.heat = Mode.cool
    ∧ Mode.cycle Mode.cool = Mode.off
    ∧ Mode.cycle (Mode.cycle (Mode.cycle m)) = m
    ∧ Mode.cycle m ≠ m := by
  cases m <;> exact ⟨rfl, rfl, rfl, rfl, by decide⟩

/-- C2: on a non-empty, strictly ascending schedule the lookup returns the
setpoint of the greatest entry whose minute-of-day is at most m, and wraps
to the last entry's setpoint when every entry is later than m; on the
concrete schedule (360 min -> 70, 1320 min -> 65) the minutes 0, 359, 360,
1319, 1320 map to 65, 65, 70, 70, 65 respectively. -/
theorem C2_schedule_lookup (mins : List ℕ) (vals : List ℤ) (m : ℕ)
    (hne : mins ≠ []) (hsorted : mins.Sorted (· < ·)) :
    ((∀ i, i < mins.length → m < mins.getD i 0) →
        refreshBase mins vals m = vals.getLastD 0)
    ∧ (∀ i, i < mins.length → mins.getD i 0 ≤ m →
        (∀ j, j < mins.length → mins.getD j 0 ≤ m → j ≤ i) →
        refreshBase mins vals m = vals.getD i 0)
    ∧ refreshBase scheduleMinutes scheduleValues 0 = 65
    ∧ refreshBase scheduleMinutes scheduleValues 359 = 65
    ∧ refreshBase scheduleMinutes scheduleValues 360 = 70
    ∧ refreshBase scheduleMinutes scheduleValues 1319 = 70
    ∧ refreshBase scheduleMinutes scheduleValues 1320 = 65 := by
  have hco := bisectRight_correct mins m hsorted.le_of_lt
  refine ⟨?_, ?_, by decide, by decide, by decide, by decide, by decide⟩
  · intro hall
    have hr0 : bisectRight mins m = 0 := by
      by_contra hne0
      have hpos : 0 < bisectRight mins m := Nat.pos_of_ne_zero hne0
      have h1 : mins.getD (bisectRight mins m - 1) 0 ≤ m := hco.2.1 _ (by omega)
      have h2 : m < mins.getD (bisectRight mins m - 1) 0 := hall _ (by omega)
      omega
    unfold refreshBase
    rw [hr0]
    norm_num
  · intro i hilen hile hmax
    have hr : bisectRight mins m = i + 1 := by
      have hgt : i < bisectRight mins m := by
        by_contra hle
        have := hco.2.2 i (by omega) hilen
        omega
      have hle2 : bisectRight mins m ≤ i + 1 := by
        have h1 : mins.getD (bisectRight mins m - 1) 0 ≤ m := hco.2.1 _ (by omega)
        have h2 := hmax (bisectRight mins m - 1) (by omega) h1
        omega
      omega
    unfold refreshBase
    rw [hr]
    have hcond : ¬ ((((i + 1 : ℕ) : ℤ) - 1) < 0) := by push_cast; omega
    rw [if_neg hcond]
    congr 1
    omega

/-- Closed instantiation of the schedule lookup theorem on the concrete
schedule at minute 0. -/
theorem C2_schedule_lookup_witness :
    scheduleMinutes ≠ [] ∧ scheduleMinutes.Sorted (· < ·)
    ∧ refreshBase scheduleMinutes scheduleValues 0 = 65 :=
  ⟨by decide, by decide,
   (C2_schedule_lookup scheduleMinutes scheduleValues 0 (by decide) (by decide)).2.2.1⟩

/-- C3: after every refresh and after every increment or decrement event the
effective set point equals base plus manual offset; the events move the
offset by plus one and minus one; concretely, base 70 with offset -3 yields
67, and two increments later the effective set point is 69. -/
theorem C3_setpoint_invariant (en : Bool) (mins : List ℕ) (vals : List ℤ)
    (m : ℕ) (st : SetpointState) :
    (refreshEffectiveSetPoint en mins vals m st).setPoint
      = (refreshEffectiveSetPoint en mins vals m st).baseSetPoint
        + (refreshEffectiveSetPoint en mins vals m st).manualOffset
    ∧ (processTempIncButton en mins vals m st).setPoint
      = (processTempIncButton en mins vals m st).baseSetPoint
        + (processTempIncButton en mins vals m st).manualOffset
    ∧ (processTempIncButton en mins vals m st).manualOffset = st.manualOffset + 1
    ∧ (processTempDecButton en mins vals m st).setPoint
      = (processTempDecButton en mins vals m st).baseSetPoint
        + (processTempDecButton en mins vals m st).manualOffset
    ∧ (processTempDecButton en mins vals m st).manualOffset = st.manualOffset - 1
    ∧ (refreshEffectiveSetPoint true scheduleMinutes scheduleValues 400
        ⟨70, -3, 70⟩).setPoint = 67
    ∧ (processTempIncButton true scheduleMinutes scheduleValues 400
        (processTempIncButton true scheduleMinutes scheduleValues 400
          ⟨70, -3, 67⟩)).setPoint = 69 := by
  refine ⟨rfl, rfl, rfl, rfl, rfl, by decide, by decide⟩

/-- C4: from any window at least 1 and any pushed stream, a further push
appends the sample and evicts the oldest exactly when the buffer was full,
and returns the average of the retained samples; the value is absent exactly
when nothing has been pushed; the buffer never exceeds the window; window 1
passes each sample through unchanged; and with window 3 the pushes
70, 72, 74, 76 return 70, 71, 72, 74. -/
theorem C4_smoothing_filter (w : ℤ) (hw : 1 ≤ w) (xs : List ℚ) (x : ℚ) :
    ((maAfter w xs).push x).1.buf
      = (if (maAfter w xs).buf.length = (maAfter w xs).window
         then (maAfter w xs).buf.tail ++ [x] else (maAfter w xs).buf ++ [x])
    ∧ ((maAfter w xs).push x).2
      = some (((maAfter w xs).push x).1.buf.sum
              / ((((maAfter w xs).push x).1.buf.length : ℚ)))
    ∧ ((maAfter w xs).value = none ↔ xs = [])
    ∧ (maAfter w xs).buf.length ≤ w.toNat
    ∧ (w = 1 → ((maAfter w xs).push x).2 = some x)
    ∧ ((MovingAverage.init 3).pushAll [70, 72, 74, 76]).2
        = [some 70, some 71, some 72, some 74] := by
  have hv := maAfter_valid w xs
  refine ⟨MovingAverage.push_buf _ x hv, MovingAverage.push_value _ x hv, ?_, ?_, ?_,
    by norm_num [MovingAverage.pushAll, MovingAverage.push, MovingAverage.init,
      MovingAverage.value]; simp⟩
  · rw [← maAfter_buf_empty_iff w xs]
    unfold MovingAverage.value
    constructor
    · intro h
      by_contra hne2
      rw [if_neg hne2] at h
      exact Option.some_ne_none _ h
    · intro h
      rw [if_pos h]
  · have h1 := hv.2.1
    have h2 : (maAfter w xs).window = w.toNat := by
      rw [maAfter_window]
      simp only [MovingAverage.init]
      omega
    omega
  · intro hw1
    subst hw1
    have hwin : (maAfter 1 xs).window = 1 := by
      rw [maAfter_window]
      simp only [MovingAverage.init]
      omega
    have hbuf : ((maAfter 1 xs).push x).1.buf = [x] := by
      rw [MovingAverage.push_buf _ x hv, hwin]
      have hlen := hv.2.1
      rw [hwin] at hlen
      by_cases hfull : (maAfter 1 xs).buf.length = 1
      · rw [if_pos hfull]
        have : (maAfter 1 xs).buf.tail.length = 0 := by
          rw [List.length_tail, hfull]
        rw [List.length_eq_zero.mp this]
        rfl
      · rw [if_neg hfull]
        have : (maAfter 1 xs).buf.length = 0 := by omega
        rw [List.length_eq_zero.mp this]
        rfl
    rw [MovingAverage.push_value _ x hv, hbuf]
    norm_num

/-- Closed instantiation of the smoothing filter theorem at window 3 and the
sample stream of the testable example. -/
theorem C4_smoothing_filter_witness :
    (1 : ℤ) ≤ 3 ∧ (maAfter 3 [70, 72, 74, 76]).buf.length ≤ (3 : ℤ).toNat :=
  ⟨by decide, (C4_smoothing_filter 3 (by decide) [70, 72, 74, 76] 78).2.2.2.1⟩

/-- C10: the constructor clamps every window argument, zero and negative
included, to at least 1; a fresh filter reports an absent value instead of
dividing by the empty buffer; every push leaves a non-empty buffer and a
present return value, so no division by zero is reachable; and the buffer
bound holds for every constructor argument. -/
theorem C10_window_clamp (w : ℤ) (xs : List ℚ) (x : ℚ) :
    1 ≤ (MovingAverage.init w).window
    ∧ (MovingAverage.init w).value = none
    ∧ (maAfter w xs).buf.length ≤ (MovingAverage.init w).window
    ∧ ((maAfter w xs).push x).1.buf ≠ []
    ∧ (((maAfter w xs).push x).2).isSome = true
    ∧ (MovingAverage.init 0).window = 1
    ∧ (MovingAverage.init (-5)).window = 1 := by
  have hv := maAfter_valid w xs
  refine ⟨(MovingAverage.valid_init w).2.2, rfl, ?_, ?_, ?_, by decide, by decide⟩
  · rw [← maAfter_window w xs]
    exact hv.2.1
  · exact MovingAverage.push_buf_ne_nil _ x hv.2.2
  · rw [MovingAverage.push_value _ x hv]
    rfl

/-- C9: starting from counter = 1 and altCounter = 1, the status line is
emitted in tick n+1 exactly when n+1 is a multiple of 30 — so first on the
30th tick, never immediately at startup — and both counters follow the
reset-to-1 pattern: the status counter is n mod 30 + 1 and the alternation
counter is n mod 10 + 1 before tick n+1, never 0. -/
theorem C9_status_cadence (minutes : ℕ → ℕ) (samples : ℕ → ℕ → Option ℚ)
    (n : ℕ) :
    (loopState minutes samples true n).counter = n % 30 + 1
    ∧ (loopState minutes samples true n).altCounter = n % 10 + 1
    ∧ ((manageMyDisplayTick (minutes n) (samples n) true
          (loopState minutes samples true n).counter
          (loopState minutes samples true n).altCounter
          (loopState minutes samples true n).st).emitted.isSome
        ↔ (n + 1) % 30 = 0)
    ∧ (manageMyDisplayTick (minutes 0) (samples 0) true 1 1
        initMachine).emitted = none := by
  have main : ∀ k, (loopState minutes samples true k).counter = k % 30 + 1
      ∧ (loopState minutes samples true k).altCounter = k % 10 + 1 := by
    intro k
    induction k with
    | zero => exact ⟨rfl, rfl⟩
    | succ k ih =>
      constructor
      · simp only [loopState]
        rw [tick_counter, ih.1]
        simp only [STATUS_PERIOD_S]
        split <;> omega
      · simp only [loopState]
        rw [tick_altCounter, ih.2]
        split_ifs <;> omega
  refine ⟨(main n).1, (main n).2, ?_, rfl⟩
  rw [tick_emitted_isSome, (main n).1]
  simp only [STATUS_PERIOD_S, beq_iff_eq]
  omega

/-- C8 (amended): within one loop iteration the smoothed temperature is read
once by the display branch (or once inside the every-10th-tick actuation
refresh, or not at all on the other label ticks), and a status tick adds two
more reads — one for the serial line and one for the database entry — so a
tick performs up to three reads and the status line never reuses the
display's smoothed value. -/
theorem C8_tick_read_count (m : ℕ) (samples : ℕ → Option ℚ) (ser : Bool)
    (c a : ℕ) (st : MachineState) :
    (manageMyDisplayTick m samples ser c a st).reads
      = (if a < 6 then 1 else if 11 ≤ a + 1 then 1 else 0)
        + (if c % STATUS_PERIOD_S = 0 then (if ser then 2 else 1) else 0)
    ∧ (manageMyDisplayTick m samples ser c a st).reads ≤ 3 := by
  have h : (manageMyDisplayTick m samples ser c a st).reads
      = (if a < 6 then 1 else if 11 ≤ a + 1 then 1 else 0)
        + (if c % STATUS_PERIOD_S = 0 then (if ser then 2 else 1) else 0) := by
    simp only [manageMyDisplayTick]
    rw [displayPhase_reads, statusPhase_reads]
  refine ⟨h, ?_⟩
  rw [h]
  split_ifs <;> omega

/-- On a status tick that also renders the temperature line (counter 30,
altCounter 1, sensor present, serial present) the smoothed temperature is
read three times, refuting the claim that it is read at most once per tick
and that the status line reuses the display's smoothed value. -/
theorem C8_counterexample :
    (manageMyDisplayTick 0 (fun _ => some 20) true 30 1 initMachine).reads = 3
    ∧ ¬ (manageMyDisplayTick 0 (fun _ => some 20) true 30 1
          initMachine).reads ≤ 1 := by
  constructor
  · decide
  · decide

/-- C6: every status emission has the shape mode,temp,setpoint followed by a
newline, where the mode label is one of off/heat/cool, temp is the floor of
the smoothed Fahrenheit value or the token NA when it is absent, and the
setpoint is the refreshed effective setpoint; concretely, Heat at smoothed
69.7 with setpoint 70 transmits heat,69,70 plus newline, and an absent
temperature transmits heat,NA,70 plus newline. -/
theorem C6_status_line_format (mode : Mode) (t : ℚ) (sp : ℤ) (m : ℕ)
    (samples : ℕ → Option ℚ) (ser : Bool) (c a : ℕ) (st : MachineState) :
    statusTransmission mode (some t) sp
      = modeLabel mode ++ "," ++ toString (Int.floor t) ++ ","
        ++ toString sp ++ "\n"
    ∧ statusTransmission mode none sp
      = modeLabel mode ++ "," ++ "NA" ++ "," ++ toString sp ++ "\n"
    ∧ (modeLabel mode = "off" ∨ modeLabel mode = "heat" ∨ modeLabel mode = "cool")
    ∧ ((manageMyDisplayTick m samples ser c a st).emitted = none
       ∨ ∃ temp, (manageMyDisplayTick m samples ser c a st).emitted
           = some (statusTransmission st.mode temp
               (refreshEffectiveSetPoint SCHEDULE_ENABLED scheduleMinutes
                 scheduleValues m st.sp).setPoint))
    ∧ statusTransmission Mode.heat (some (697 / 10)) 70 = "heat,69,70\n"
    ∧ statusTransmission Mode.heat none 70 = "heat,NA,70\n" := by
  refine ⟨rfl, rfl, ?_, ?_, ?_, by decide⟩
  · cases mode <;> simp [modeLabel]
  · have hst1 : (manageMyDisplayTick m samples ser c a st).emitted
        = (statusPhase samples
            (displayPhase m samples a
              { st with sp := (refreshEffectiveSetPoint SCHEDULE_ENABLED
                scheduleMinutes scheduleValues m st.sp) }).reads ser c
            (displayPhase m samples a
              { st with sp := (refreshEffectiveSetPoint SCHEDULE_ENABLED
                scheduleMinutes scheduleValues m st.sp) }).st).emitted := rfl
    have hm : (displayPhase m samples a
        { st with sp := (refreshEffectiveSetPoint SCHEDULE_ENABLED
          scheduleMinutes scheduleValues m st.sp) }).st.mode = st.mode := by
      rw [displayPhase_mode]
    have hsp : (displayPhase m samples a
        { st with sp := (refreshEffectiveSetPoint SCHEDULE_ENABLED
          scheduleMinutes scheduleValues m st.sp) }).st.sp
        = refreshEffectiveSetPoint SCHEDULE_ENABLED scheduleMinutes
            scheduleValues m st.sp := by
      rcases displayPhase_sp m samples a
        { st with sp := (refreshEffectiveSetPoint SCHEDULE_ENABLED
          scheduleMinutes scheduleValues m st.sp) } with h2 | h2
      · rw [h2]
      · rw [h2]
        exact refresh_idem SCHEDULE_ENABLED scheduleMinutes scheduleValues m st.sp
    rw [hst1]
    rcases statusPhase_emitted_shape samples
      (displayPhase m samples a
        { st with sp := (refreshEffectiveSetPoint SCHEDULE_ENABLED
          scheduleMinutes scheduleValues m st.sp) }).reads ser c
      (displayPhase m samples a
        { st with sp := (refreshEffectiveSetPoint SCHEDULE_ENABLED
          scheduleMinutes scheduleValues m st.sp) }).st with h | ⟨temp, h⟩
    · left
      exact h
    · right
      refine ⟨temp, ?_⟩
      rw [h, hm, hsp]
  · have hfloor : Int.floor (697 / 10 : ℚ) = 69 := by norm_num
    simp only [statusTransmission, setupSerialOutput, hfloor]
    decide
